import Mathlib

/-!
Verification of the Kestrel monitoring core against its specification.

The definitions below are a shallow embedding of the C++ sources:
  - `core/engine/measurement_window.cpp` / `.h` (per-signal bounded ring buffer),
  - `core/engine/engine.cpp` / `.h` (rule evaluation, state machine, aggregate),
  - `core/fault/fault_injector.cpp` / `.h` (fault table and apply transform),
  - `core/rules/rate_of_change_rule.cpp`.

Conventions of the embedding:
  - C++ `double` values and `steady_clock` instants are modelled as rationals
    (`ℚ`); the claims under study only compare and subtract them.
  - `std::unordered_map` keyed by sensor id is modelled as an association list
    when the code iterates over it (engine states, window buffers) and as a
    function `String → Option _` when it is only read, written and erased
    pointwise (the fault table).
  - Mutation is explicit state passing; `FaultInjector::apply` returns the
    modified reading together with the updated injector.
  - Undefined behaviour is modelled by `Option`: pushing into a window of
    capacity `0` would evaluate `(head + 1) % 0` in C++, so `push` returns
    `none` exactly there.
  - The wall clock read by `Engine::transition` is passed in as an explicit
    `now` argument; the sleep performed by the `DELAYED_READING` fault has no
    effect on data and is not modelled.
-/

/-- One numeric observation from one signal, from `sensors/sensor.h`.
Field defaults mirror the in-class initializers (`value = 0.0`,
`valid = false`; a default-constructed time point is the epoch). -/
structure SensorReading where
  value : ℚ := 0
  timestamp : ℚ := 0
  valid : Bool := false
  sensor_id : String := ""
deriving DecidableEq, Repr, Inhabited

/-- Health classification of a signal or of the aggregate system, from
`engine/system_state.h`. -/
inductive SystemState where
  | OK
  | DEGRADED
  | FAILED
  | UNKNOWN
deriving DecidableEq, Repr

/-- Severity returned by a rule, from `rules/rule.h` (`OK < DEGRADED < FAILED`). -/
inductive RuleSeverity where
  | OK
  | DEGRADED
  | FAILED
deriving DecidableEq, Repr

/-- Result of one rule evaluation, from `rules/rule.h`. -/
structure RuleResult where
  rule_name : String := ""
  sensor_id : String := ""
  severity : RuleSeverity := RuleSeverity.OK
  message : String := ""
deriving DecidableEq, Repr

/-- Record of one per-signal state change, from `engine/system_state.h`.
`from` and `to` are Lean keywords, hence the trailing underscores. -/
structure StateTransition where
  sensor_id : String
  from_ : SystemState
  to_ : SystemState
  reason : String
  timestamp : ℚ
deriving DecidableEq, Repr

/-- Lookup in an association list with string keys (first match), modelling
`std::unordered_map::find`. -/
def alFind {α : Type} : List (String × α) → String → Option α
  | [], _ => none
  | (k, v) :: rest, key => if k = key then some v else alFind rest key

/-- Insert-or-replace in an association list, modelling assignment through
`std::unordered_map::operator[]`. -/
def alSet {α : Type} : List (String × α) → String → α → List (String × α)
  | [], key, v => [(key, v)]
  | (k, w) :: rest, key, v =>
    if k = key then (key, v) :: rest else (k, w) :: alSet rest key v

/-- Per-signal ring storage, from the `RingBuffer` member struct of
`MeasurementWindow` (buffer, head index, stored count). -/
structure RingBuffer where
  buffer : List SensorReading := []
  head : Nat := 0
  count : Nat := 0
deriving DecidableEq, Repr

/-- Bounded per-signal window of recent readings, from
`engine/measurement_window.h`. -/
structure MeasurementWindow where
  capacity : Nat
  buffers : List (String × RingBuffer) := []
deriving DecidableEq, Repr

/-- The `MeasurementWindow` constructor (`measurement_window.cpp`, lines 7-8):
it stores the capacity and performs no validation whatsoever. -/
def MeasurementWindow.make (capacity : Nat) : MeasurementWindow :=
  { capacity := capacity, buffers := [] }

/-- A default-constructed `RingBuffer` (what `buffers_[id]` creates for an
unseen id). -/
def emptyRB : RingBuffer := { buffer := [], head := 0, count := 0 }

/-- `MeasurementWindow::push` (`measurement_window.cpp`, lines 10-22).
While the ring is not yet full the reading is appended
(`head = size - 1`, `count = size`); once full, the slot after `head` is
overwritten. In the full branch C++ computes `(head + 1) % capacity_`,
which is undefined for `capacity_ = 0`; that case is `none`. -/
def MeasurementWindow.push (w : MeasurementWindow) (reading : SensorReading) :
    Option MeasurementWindow :=
  let rb := (alFind w.buffers reading.sensor_id).getD emptyRB
  if rb.buffer.length < w.capacity then
    some { w with
      buffers := alSet w.buffers reading.sensor_id
        { buffer := rb.buffer ++ [reading],
          head := rb.buffer.length,
          count := rb.buffer.length + 1 } }
  else if w.capacity = 0 then
    none
  else
    let h := (rb.head + 1) % w.capacity
    some { w with
      buffers := alSet w.buffers reading.sensor_id
        { buffer := rb.buffer.set h reading, head := h, count := w.capacity } }

/-- `MeasurementWindow::readings_for` (`measurement_window.cpp`, lines 24-46):
walk `count` slots from the oldest entry, oldest first. -/
def MeasurementWindow.readings_for (w : MeasurementWindow) (sensor_id : String) :
    List SensorReading :=
  match alFind w.buffers sensor_id with
  | none => []
  | some rb =>
    let start := if rb.count < w.capacity then 0 else (rb.head + 1) % w.capacity
    (List.range rb.count).map
      (fun i => rb.buffer.getD ((start + i) % rb.buffer.length) default)

/-- `MeasurementWindow::latest` (`measurement_window.cpp`, lines 48-57): the
entry at `head`, or a sentinel invalid reading for an unseen or empty signal. -/
def MeasurementWindow.latest (w : MeasurementWindow) (sensor_id : String) :
    SensorReading :=
  match alFind w.buffers sensor_id with
  | none => { sensor_id := sensor_id, valid := false }
  | some rb =>
    if rb.count = 0 then { sensor_id := sensor_id, valid := false }
    else rb.buffer.getD rb.head default

/-- Push a list of readings in order, stopping at the first failing push. -/
def MeasurementWindow.pushList (w : MeasurementWindow) :
    List SensorReading → Option MeasurementWindow
  | [] => some w
  | r :: rest =>
    match w.push r with
    | none => none
    | some w' => w'.pushList rest

/-- A registered rule, the shallow embedding of the `IRule` interface
(`rules/rule.h`): `evaluate` is a function of the window and the sensor id. -/
def Rule : Type := MeasurementWindow → String → RuleResult

/-- The health-monitoring engine, from `engine/engine.h`: window, rule list,
per-signal states, append-only transition log. -/
structure Engine where
  window : MeasurementWindow
  rules : List Rule
  sensor_states : List (String × SystemState)
  transitions : List StateTransition

/-- The `Engine` constructor (`engine.cpp`, lines 7-8). -/
def Engine.make (window_capacity : Nat) : Engine :=
  { window := MeasurementWindow.make window_capacity,
    rules := [], sensor_states := [], transitions := [] }

/-- `Engine::add_rule` (`engine.cpp`, lines 10-12). -/
def Engine.add_rule (e : Engine) (rule : Rule) : Engine :=
  { e with rules := e.rules ++ [rule] }

/-- The rule loop of `Engine::evaluate_sensor` (`engine.cpp`, lines 66-74):
return `FAILED` at the first rule whose severity is `FAILED`, `DEGRADED` at
the first whose severity is `DEGRADED`, `OK` when the list is exhausted. -/
def runRules (w : MeasurementWindow) (sensor_id : String) :
    List Rule → SystemState
  | [] => SystemState.OK
  | rule :: rest =>
    let result := rule w sensor_id
    if result.severity = RuleSeverity.FAILED then SystemState.FAILED
    else if result.severity = RuleSeverity.DEGRADED then SystemState.DEGRADED
    else runRules w sensor_id rest

/-- `Engine::evaluate_sensor` (`engine.cpp`, lines 58-77). -/
def Engine.evaluate_sensor (e : Engine) (sensor_id : String) : SystemState :=
  let latest := e.window.latest sensor_id
  if latest.valid = false then SystemState.FAILED
  else runRules e.window sensor_id e.rules

/-- `Engine::sensor_state` (`engine.cpp`, lines 30-36). -/
def Engine.sensor_state (e : Engine) (sensor_id : String) : SystemState :=
  (alFind e.sensor_states sensor_id).getD SystemState.UNKNOWN

/-- The accumulator loop of `Engine::aggregate_state` (`engine.cpp`,
lines 44-54): early return on `FAILED`; `UNKNOWN` overwrites the accumulator
unconditionally; `DEGRADED` only upgrades an `OK` accumulator. -/
def aggLoop : List (String × SystemState) → SystemState → SystemState
  | [], worst => worst
  | (_, state) :: rest, worst =>
    if state = SystemState.FAILED then SystemState.FAILED
    else if state = SystemState.UNKNOWN then aggLoop rest SystemState.UNKNOWN
    else if state = SystemState.DEGRADED ∧ worst = SystemState.OK then
      aggLoop rest SystemState.DEGRADED
    else aggLoop rest worst

/-- `Engine::aggregate_state` (`engine.cpp`, lines 38-56). -/
def Engine.aggregate_state (e : Engine) : SystemState :=
  if e.sensor_states.isEmpty then SystemState.UNKNOWN
  else aggLoop e.sensor_states SystemState.OK

/-- `Engine::transition` (`engine.cpp`, lines 79-90): record the change
(`from` read through `operator[]`, whose value-initialized default is the
first enumerator `OK`; the key always exists at the call sites), update the
state, append the record. `now` stands for `steady_clock::now()`. -/
def Engine.transition (e : Engine) (sensor_id : String)
    (new_state : SystemState) (reason : String) (now : ℚ) : Engine :=
  { e with
    sensor_states := alSet e.sensor_states sensor_id new_state,
    transitions := e.transitions ++
      [{ sensor_id := sensor_id,
         from_ := (alFind e.sensor_states sensor_id).getD SystemState.OK,
         to_ := new_state, reason := reason, timestamp := now }] }

/-- The body of the `Engine::process` loop for one reading (`engine.cpp`,
lines 15-27): push into the window, initialize the state to `UNKNOWN` on
first sight, evaluate, and transition when the state changed. `none` when
the push is undefined (capacity-0 window). -/
def Engine.process1 (e : Engine) (reading : SensorReading) (now : ℚ) :
    Option Engine :=
  match e.window.push reading with
  | none => none
  | some w =>
    let e1 : Engine := { e with window := w }
    let e2 : Engine :=
      if alFind e1.sensor_states reading.sensor_id = none then
        { e1 with
          sensor_states :=
            alSet e1.sensor_states reading.sensor_id SystemState.UNKNOWN }
      else e1
    let new_state := e2.evaluate_sensor reading.sensor_id
    if new_state ≠ (alFind e2.sensor_states reading.sensor_id).getD SystemState.OK
    then some (e2.transition reading.sensor_id new_state "rule_evaluation" now)
    else some e2

/-- `Engine::process` (`engine.cpp`, lines 14-28): fold the loop body over the
batch in iteration order. -/
def Engine.process (e : Engine) (readings : List SensorReading) (now : ℚ) :
    Option Engine :=
  match readings with
  | [] => some e
  | r :: rest =>
    match e.process1 r now with
    | none => none
    | some e' => e'.process rest now

/-- A sequence of `Engine::process` calls, each a batch of readings with the
wall-clock instant of that call. -/
def Engine.processAll (e : Engine) :
    List (List SensorReading × ℚ) → Option Engine
  | [] => some e
  | (batch, now) :: rest =>
    match e.process batch now with
    | none => none
    | some e' => e'.processAll rest

/-- The five fault kinds, from `fault/fault_injector.h`. -/
inductive FaultType where
  | INVALID_VALUE
  | DELAYED_READING
  | MISSING_UPDATE
  | SPIKE
  | INTERFACE_FAILURE
deriving DecidableEq, Repr

/-- Parameters of an injected fault, from `fault/fault_injector.h`.
`suppress_cycles` and `delay_ms` are C++ `int`, hence `Int`. -/
structure FaultParameters where
  injected_value : ℚ := 0
  suppress_cycles : Int := 0
  delay_ms : Int := 0
deriving DecidableEq, Repr

/-- An installed fault, from the `ActiveFault` member struct of
`FaultInjector`. -/
structure ActiveFault where
  type : FaultType
  params : FaultParameters
  cycles_remaining : Int := 0
deriving DecidableEq, Repr

/-- The fault stage, from `fault/fault_injector.h`: at most one active fault
per sensor id. The `unordered_map` is modelled as a pointwise map. -/
structure FaultInjector where
  faults : String → Option ActiveFault

/-- A fault injector with an empty fault table. -/
def FaultInjector.empty : FaultInjector := { faults := fun _ => none }

/-- `FaultInjector::inject` (`fault_injector.cpp`, lines 7-14): install the
fault with `cycles_remaining = params.suppress_cycles`, replacing any
existing fault for that id. -/
def FaultInjector.inject (inj : FaultInjector) (sensor_id : String)
    (type : FaultType) (params : FaultParameters) : FaultInjector :=
  { faults := fun k =>
      if k = sensor_id then
        some { type := type, params := params,
               cycles_remaining := params.suppress_cycles }
      else inj.faults k }

/-- `FaultInjector::clear` (`fault_injector.cpp`, lines 16-18), also the
effect of `faults_.erase(it)` inside `apply`. -/
def FaultInjector.clear (inj : FaultInjector) (sensor_id : String) :
    FaultInjector :=
  { faults := fun k => if k = sensor_id then none else inj.faults k }

/-- `FaultInjector::has_fault` (`fault_injector.cpp`, lines 66-68). -/
def FaultInjector.has_fault (inj : FaultInjector) (sensor_id : String) : Bool :=
  (inj.faults sensor_id).isSome

/-- `FaultInjector::apply` (`fault_injector.cpp`, lines 24-64). Mutation of
the fault table is explicit: the result pairs the (possibly modified) reading
with the updated injector. The `DELAYED_READING` sleep only blocks the thread
and touches neither the reading nor the table. -/
def FaultInjector.apply (inj : FaultInjector) (reading : SensorReading) :
    SensorReading × FaultInjector :=
  match inj.faults reading.sensor_id with
  | none => (reading, inj)
  | some fault =>
    match fault.type with
    | FaultType.INVALID_VALUE =>
      ({ reading with value := fault.params.injected_value }, inj)
    | FaultType.DELAYED_READING => (reading, inj)
    | FaultType.MISSING_UPDATE =>
      if 0 < fault.cycles_remaining then
        ({ reading with valid := false },
         { faults := fun k =>
             if k = reading.sensor_id then
               some { fault with cycles_remaining := fault.cycles_remaining - 1 }
             else inj.faults k })
      else (reading, inj.clear reading.sensor_id)
    | FaultType.SPIKE =>
      ({ reading with value := fault.params.injected_value },
       inj.clear reading.sensor_id)
    | FaultType.INTERFACE_FAILURE =>
      ({ reading with valid := false }, inj)

/-- Iterated `FaultInjector::apply`: thread the injector through a list of
readings, collecting the outputs in order. -/
def FaultInjector.applyN (inj : FaultInjector) :
    List SensorReading → List SensorReading × FaultInjector
  | [] => ([], inj)
  | r :: rest =>
    let step := inj.apply r
    let restOut := step.2.applyN rest
    (step.1 :: restOut.1, restOut.2)

/-- The rate-of-change rule, from `rules/rate_of_change_rule.h`. -/
structure RateOfChangeRule where
  max_rate_per_second : ℚ
deriving DecidableEq, Repr

/-- `RateOfChangeRule::evaluate` (`rate_of_change_rule.cpp`, lines 10-49):
look at the last two retained readings; `OK` when fewer than two exist,
either is invalid, or the time delta is non-positive; otherwise compare
`|curr.value - prev.value| / dt` against the configured limit. The numeric
text of the diagnostic message is abstracted to a fixed string. -/
def RateOfChangeRule.evaluate (rule : RateOfChangeRule)
    (window : MeasurementWindow) (sensor_id : String) : RuleResult :=
  let readings := window.readings_for sensor_id
  if readings.length < 2 then
    { rule_name := "RateOfChangeRule", sensor_id := sensor_id,
      severity := RuleSeverity.OK }
  else
    let prev := readings.getD (readings.length - 2) default
    let curr := readings.getD (readings.length - 1) default
    if prev.valid = false ∨ curr.valid = false then
      { rule_name := "RateOfChangeRule", sensor_id := sensor_id,
        severity := RuleSeverity.OK }
    else
      let dt := curr.timestamp - prev.timestamp
      if dt ≤ 0 then
        { rule_name := "RateOfChangeRule", sensor_id := sensor_id,
          severity := RuleSeverity.OK }
      else
        let rate := |curr.value - prev.value| / dt
        if rule.max_rate_per_second < rate then
          { rule_name := "RateOfChangeRule", sensor_id := sensor_id,
            severity := RuleSeverity.DEGRADED,
            message := "rate of change exceeds limit" }
        else
          { rule_name := "RateOfChangeRule", sensor_id := sensor_id,
            severity := RuleSeverity.OK }

/-- Witness for C8 at a concrete window: two valid readings with equal
timestamps. -/
def c8Window : MeasurementWindow :=
  { capacity := 8,
    buffers := [("s",
      { buffer := [{ value := 1, timestamp := 5, valid := true, sensor_id := "s" },
                   { value := 99, timestamp := 5, valid := true, sensor_id := "s" }],
        head := 1, count := 2 })] }

/-- Rank of a state in the worst-wins order `FAILED > UNKNOWN > DEGRADED > OK`
used by the aggregate (specification side). -/
def aggRank : SystemState → Nat
  | SystemState.OK => 0
  | SystemState.DEGRADED => 1
  | SystemState.UNKNOWN => 2
  | SystemState.FAILED => 3

/-- Worst of two states under the aggregate order (specification side). -/
def aggMax (a b : SystemState) : SystemState :=
  if aggRank a ≤ aggRank b then b else a

/-- Worst state over a state table (specification side). -/
def aggOf (l : List (String × SystemState)) : SystemState :=
  l.foldr (fun p acc => aggMax p.2 acc) SystemState.OK

/-- Severity rank in the order `OK < DEGRADED < FAILED` (specification side). -/
def sevRank : RuleSeverity → Nat
  | RuleSeverity.OK => 0
  | RuleSeverity.DEGRADED => 1
  | RuleSeverity.FAILED => 2

/-- Maximum of two severities (specification side). -/
def sevMax (a b : RuleSeverity) : RuleSeverity :=
  if sevRank a ≤ sevRank b then b else a

/-- Maximum severity of a list (specification side, for the claimed
max-reduction). -/
def sevMaxList (l : List RuleSeverity) : RuleSeverity :=
  l.foldr sevMax RuleSeverity.OK

/-- The first severity in the list that is not `OK`, or `OK` (what the
engine loop actually computes). -/
def firstNonOkSev : List RuleSeverity → RuleSeverity
  | [] => RuleSeverity.OK
  | s :: rest => if s = RuleSeverity.OK then firstNonOkSev rest else s

/-- Map a final severity to the identically-named system state. -/
def sevToState : RuleSeverity → SystemState
  | RuleSeverity.OK => SystemState.OK
  | RuleSeverity.DEGRADED => SystemState.DEGRADED
  | RuleSeverity.FAILED => SystemState.FAILED

/-- The severities produced by the registered rules on a window, in
registration order. -/
def ruleSeverities (w : MeasurementWindow) (sensor_id : String)
    (rules : List Rule) : List RuleSeverity :=
  rules.map (fun rule => (rule w sensor_id).severity)

/-- A rule that always reports `DEGRADED` (used as counterexample input). -/
def c1RuleD : Rule := fun _ _ => { severity := RuleSeverity.DEGRADED }

/-- A rule that always reports `FAILED` (used as counterexample input). -/
def c1RuleF : Rule := fun _ _ => { severity := RuleSeverity.FAILED }

/-- Engine with a `DEGRADED` rule registered before a `FAILED` rule. -/
def c1Engine : Engine := ((Engine.make 8).add_rule c1RuleD).add_rule c1RuleF

def c1Reading : SensorReading :=
  { value := 1, timestamp := 0, valid := true, sensor_id := "s" }

def c1Engine2 : Engine := (Engine.make 8).add_rule c1RuleD

def c1Engine2' : Engine :=
  (c1Engine2.process1 c1Reading 0).getD (Engine.make 8)

def c7Engine' : Engine :=
  ((Engine.make 4).processAll [([c1Reading], 0)]).getD (Engine.make 4)

/-- The subsequence of the transition log belonging to one signal id. -/
def tlog (e : Engine) (id : String) : List StateTransition :=
  e.transitions.filter (fun t => t.sensor_id == id)

/-- A transition list is a chain starting at `s`: each record leaves the
state the previous one entered, and no record is a self-loop. -/
def chainFrom : SystemState → List StateTransition → Prop
  | _, [] => True
  | s, t :: rest => t.from_ = s ∧ t.to_ ≠ t.from_ ∧ chainFrom t.to_ rest

/-- The state a chain starting at `s` ends in. -/
def chainEnd : SystemState → List StateTransition → SystemState
  | s, [] => s
  | _, t :: rest => chainEnd t.to_ rest

def c9Engine' : Engine :=
  ((Engine.make 4).processAll [([c1Reading], 0)]).getD (Engine.make 4)

def c5Params : FaultParameters := { suppress_cycles := 2 }

def c5Readings : List SensorReading :=
  [{ value := 1, timestamp := 0, valid := true, sensor_id := "s" },
   { value := 2, timestamp := 1, valid := true, sensor_id := "s" },
   { value := 3, timestamp := 2, valid := true, sensor_id := "s" }]

def c6Params : FaultParameters := { suppress_cycles := 1 }

def c6Readings : List SensorReading :=
  [{ value := 1, timestamp := 0, valid := true, sensor_id := "s" }]

/-- Abstract effect of one push on the retained oldest-first sequence
(specification side): append, evicting the oldest when full. -/
def absPush (c : Nat) (m : List SensorReading) (r : SensorReading) :
    List SensorReading :=
  if m.length < c then m ++ [r] else m.drop 1 ++ [r]

/-- Well-formedness of a stored ring buffer of a window of capacity `c`. -/
def rbWF (c : Nat) (rb : RingBuffer) : Prop :=
  rb.count = rb.buffer.length ∧ rb.buffer.length ≤ c ∧
  (rb.buffer.length < c → rb.head + 1 = rb.buffer.length) ∧
  (rb.buffer.length = c → rb.head < c)

theorem alFind_alSet_self {α : Type} (m : List (String × α)) (key : String) (v : α) :
    alFind (alSet m key v) key = some v := by
  induction m with
  | nil => simp [alSet, alFind]
  | cons p rest ih =>
    rcases p with ⟨k, w⟩
    by_cases h : k = key <;> simp [alSet, alFind, h, ih]

theorem alFind_alSet_ne {α : Type} (m : List (String × α)) (key id : String) (v : α)
    (h : id ≠ key) : alFind (alSet m key v) id = alFind m id := by
  have hk : key ≠ id := fun hh => h hh.symm
  induction m with
  | nil => simp [alSet, alFind, hk]
  | cons p rest ih =>
    rcases p with ⟨k, w⟩
    by_cases hkk : k = key
    · subst hkk
      simp [alSet, alFind, hk]
    · simp [alSet, alFind, hkk, ih]

/-- Claim C10: `FaultInjector::apply` preserves the `sensor_id` and
`timestamp` fields of its input; every fault kind modifies at most the
`value` and `valid` fields. -/
theorem C10_apply_frame (inj : FaultInjector) (reading : SensorReading) :
    ((inj.apply reading).1).sensor_id = reading.sensor_id ∧
    ((inj.apply reading).1).timestamp = reading.timestamp := by
  unfold FaultInjector.apply
  cases h : inj.faults reading.sensor_id with
  | none => exact ⟨rfl, rfl⟩
  | some fault =>
    obtain ⟨ftype, fparams, fcyc⟩ := fault
    cases ftype
    case INVALID_VALUE => exact ⟨rfl, rfl⟩
    case DELAYED_READING => exact ⟨rfl, rfl⟩
    case MISSING_UPDATE =>
      dsimp only
      split <;> exact ⟨rfl, rfl⟩
    case SPIKE => exact ⟨rfl, rfl⟩
    case INTERFACE_FAILURE => exact ⟨rfl, rfl⟩

/-- Claim C3 (evidence): the `MeasurementWindow` constructor does not reject
capacity `0`: it produces the window `⟨0, []⟩` with no failure path, and the
very first push into that window is undefined behaviour in the C++
(`(head + 1) % 0`), modelled as `none`. -/
theorem C3_capacity_zero_not_rejected :
    MeasurementWindow.make 0 = { capacity := 0, buffers := [] } ∧
    (MeasurementWindow.make 0).push
      { value := 1/2, timestamp := 0, valid := true, sensor_id := "cpu_load" }
      = none := by
  exact ⟨rfl, rfl⟩

/-- Claim C8: if the last two retained readings for a signal are both valid
and their time delta is non-positive, `RateOfChangeRule::evaluate` returns
severity `OK` (the division guard branch). -/
theorem C8_rate_guard (rule : RateOfChangeRule) (w : MeasurementWindow)
    (id : String)
    (h2 : 2 ≤ (w.readings_for id).length)
    (hvp : ((w.readings_for id).getD ((w.readings_for id).length - 2)
        default).valid = true)
    (hvc : ((w.readings_for id).getD ((w.readings_for id).length - 1)
        default).valid = true)
    (hdt : ((w.readings_for id).getD ((w.readings_for id).length - 1)
          default).timestamp ≤
        ((w.readings_for id).getD ((w.readings_for id).length - 2)
          default).timestamp) :
    (rule.evaluate w id).severity = RuleSeverity.OK := by
  unfold RateOfChangeRule.evaluate
  dsimp only
  rw [if_neg (by omega)]
  rw [if_neg (by rw [hvp, hvc]; simp)]
  rw [if_pos (sub_nonpos.mpr hdt)]

theorem C8_rate_guard_witness :
    (RateOfChangeRule.evaluate { max_rate_per_second := 1 } c8Window "s").severity
      = RuleSeverity.OK :=
  C8_rate_guard { max_rate_per_second := 1 } c8Window "s"
    (by decide) (by decide) (by decide) (by decide)

theorem aggOf_cons (p : String × SystemState) (l : List (String × SystemState)) :
    aggOf (p :: l) = aggMax p.2 (aggOf l) := rfl

theorem aggMax_ok_left (x : SystemState) : aggMax SystemState.OK x = x := by
  cases x <;> rfl

theorem aggMax_failed_right (x : SystemState) :
    aggMax x SystemState.FAILED = SystemState.FAILED := by
  cases x <;> rfl

theorem aggLoop_eq_aggMax (l : List (String × SystemState)) :
    ∀ worst, worst ≠ SystemState.FAILED →
      aggLoop l worst = aggMax worst (aggOf l) := by
  induction l with
  | nil =>
    intro worst _
    cases worst <;> rfl
  | cons p rest ih =>
    intro worst hw
    rcases p with ⟨k, s⟩
    rw [aggOf_cons]
    cases s
    case OK =>
      rw [show aggLoop ((k, SystemState.OK) :: rest) worst
            = aggLoop rest worst from by simp [aggLoop]]
      rw [ih worst hw, aggMax_ok_left]
    case FAILED =>
      rw [show aggLoop ((k, SystemState.FAILED) :: rest) worst
            = SystemState.FAILED from by simp [aggLoop]]
      rw [show aggMax SystemState.FAILED (aggOf rest) = SystemState.FAILED from by
        cases h : aggOf rest <;> rfl]
      rw [aggMax_failed_right]
    case UNKNOWN =>
      rw [show aggLoop ((k, SystemState.UNKNOWN) :: rest) worst
            = aggLoop rest SystemState.UNKNOWN from by simp [aggLoop]]
      rw [ih SystemState.UNKNOWN (by simp)]
      cases worst <;> first
        | exact absurd rfl hw
        | (cases h : aggOf rest <;> rfl)
    case DEGRADED =>
      by_cases hwOK : worst = SystemState.OK
      · subst hwOK
        rw [show aggLoop ((k, SystemState.DEGRADED) :: rest) SystemState.OK
              = aggLoop rest SystemState.DEGRADED from by simp [aggLoop]]
        rw [ih SystemState.DEGRADED (by simp), aggMax_ok_left]
      · rw [show aggLoop ((k, SystemState.DEGRADED) :: rest) worst
              = aggLoop rest worst from by simp [aggLoop, hwOK]]
        rw [ih worst hw]
        cases worst <;> first
          | exact absurd rfl hw
          | exact absurd rfl hwOK
          | (cases h : aggOf rest <;> rfl)

theorem aggOf_char (l : List (String × SystemState)) :
    aggOf l =
      (if l.any (fun p => p.2 == SystemState.FAILED) then SystemState.FAILED
       else if l.any (fun p => p.2 == SystemState.UNKNOWN) then SystemState.UNKNOWN
       else if l.any (fun p => p.2 == SystemState.DEGRADED) then SystemState.DEGRADED
       else SystemState.OK) := by
  induction l with
  | nil => rfl
  | cons p rest ih =>
    rcases p with ⟨k, s⟩
    rw [aggOf_cons, ih]
    cases s <;>
      cases hF : rest.any (fun p => p.2 == SystemState.FAILED) <;>
      cases hU : rest.any (fun p => p.2 == SystemState.UNKNOWN) <;>
      cases hD : rest.any (fun p => p.2 == SystemState.DEGRADED) <;>
      simp [List.any_cons, hF, hU, hD, aggMax, aggRank]

/-- Claim C2: `Engine::aggregate_state` is worst-wins in the order
`FAILED > UNKNOWN > DEGRADED > OK` over the known signals: `FAILED` if any
signal is `FAILED`, else `UNKNOWN` if any is `UNKNOWN`, else `DEGRADED` if
any is `DEGRADED`, else `OK`; with no known signals it is `UNKNOWN`.
Proved for every engine value, hence for every reachable one. -/
theorem C2_aggregate (e : Engine) :
    e.aggregate_state =
      (if e.sensor_states.any (fun p => p.2 == SystemState.FAILED) then
        SystemState.FAILED
       else if e.sensor_states.any (fun p => p.2 == SystemState.UNKNOWN) then
        SystemState.UNKNOWN
       else if e.sensor_states.any (fun p => p.2 == SystemState.DEGRADED) then
        SystemState.DEGRADED
       else if e.sensor_states.isEmpty then SystemState.UNKNOWN
       else SystemState.OK) := by
  unfold Engine.aggregate_state
  cases hl : e.sensor_states with
  | nil => rfl
  | cons p rest =>
    rw [show ((p :: rest).isEmpty = false) from rfl]
    rw [aggLoop_eq_aggMax (p :: rest) SystemState.OK (by simp), aggMax_ok_left]
    rw [aggOf_char]
    cases hF : (p :: rest).any (fun q => q.2 == SystemState.FAILED) <;>
      cases hU : (p :: rest).any (fun q => q.2 == SystemState.UNKNOWN) <;>
      cases hD : (p :: rest).any (fun q => q.2 == SystemState.DEGRADED) <;>
      simp [hF, hU, hD]

theorem runRules_eq_firstNonOk (w : MeasurementWindow) (sensor_id : String)
    (rules : List Rule) :
    runRules w sensor_id rules =
      sevToState (firstNonOkSev (ruleSeverities w sensor_id rules)) := by
  induction rules with
  | nil => rfl
  | cons rule rest ih =>
    rw [show ruleSeverities w sensor_id (rule :: rest)
          = (rule w sensor_id).severity :: ruleSeverities w sensor_id rest from rfl]
    cases hs : (rule w sensor_id).severity <;>
      simp [runRules, firstNonOkSev, hs, ih, sevToState]

theorem runRules_ne_unknown (w : MeasurementWindow) (sensor_id : String)
    (rules : List Rule) :
    runRules w sensor_id rules ≠ SystemState.UNKNOWN := by
  rw [runRules_eq_firstNonOk]
  cases firstNonOkSev (ruleSeverities w sensor_id rules) <;> simp [sevToState]

theorem evaluate_sensor_ne_unknown (e : Engine) (sensor_id : String) :
    e.evaluate_sensor sensor_id ≠ SystemState.UNKNOWN := by
  unfold Engine.evaluate_sensor
  by_cases h : (e.window.latest sensor_id).valid = false
  · simp [h]
  · simp [h, runRules_ne_unknown]

theorem process1_spec (e : Engine) (r : SensorReading) (now : ℚ) (e' : Engine)
    (h : e.process1 r now = some e') :
    ∃ w, e.window.push r = some w ∧ e'.window = w ∧ e'.rules = e.rules ∧
      (∀ id, id ≠ r.sensor_id →
        alFind e'.sensor_states id = alFind e.sensor_states id) ∧
      e'.sensor_state r.sensor_id
        = Engine.evaluate_sensor { e with window := w } r.sensor_id ∧
      ((e'.transitions = e.transitions ∧
          Engine.evaluate_sensor { e with window := w } r.sensor_id
            = e.sensor_state r.sensor_id) ∨
       (e'.transitions = e.transitions ++
          [{ sensor_id := r.sensor_id, from_ := e.sensor_state r.sensor_id,
             to_ := Engine.evaluate_sensor { e with window := w } r.sensor_id,
             reason := "rule_evaluation", timestamp := now }] ∧
        Engine.evaluate_sensor { e with window := w } r.sensor_id
          ≠ e.sensor_state r.sensor_id)) := by
  unfold Engine.process1 at h
  cases hp : e.window.push r with
  | none => rw [hp] at h; exact absurd h (by simp)
  | some w =>
    rw [hp] at h
    dsimp only at h
    refine ⟨w, rfl, ?_⟩
    by_cases hfind : alFind e.sensor_states r.sensor_id = none
    · rw [if_pos hfind] at h
      rw [show Engine.evaluate_sensor
            { window := w, rules := e.rules,
              sensor_states := alSet e.sensor_states r.sensor_id SystemState.UNKNOWN,
              transitions := e.transitions } r.sensor_id
          = Engine.evaluate_sensor { e with window := w } r.sensor_id from rfl] at h
      have hcur : (alFind
          (alSet e.sensor_states r.sensor_id SystemState.UNKNOWN)
          r.sensor_id).getD SystemState.OK = SystemState.UNKNOWN := by
        rw [alFind_alSet_self]
        rfl
      have hstate : e.sensor_state r.sensor_id = SystemState.UNKNOWN := by
        unfold Engine.sensor_state
        rw [hfind]
        rfl
      rw [hcur] at h
      by_cases hch : Engine.evaluate_sensor { e with window := w } r.sensor_id
          ≠ SystemState.UNKNOWN
      · rw [if_pos hch] at h
        have he' := Option.some.inj h
        subst he'
        refine ⟨rfl, rfl, ?_, ?_, ?_⟩
        · intro id hid
          unfold Engine.transition
          dsimp only
          rw [alFind_alSet_ne _ _ _ _ hid, alFind_alSet_ne _ _ _ _ hid]
        · unfold Engine.sensor_state Engine.transition
          dsimp only
          rw [alFind_alSet_self]
          rfl
        · right
          refine ⟨?_, by rw [hstate]; exact hch⟩
          unfold Engine.transition
          dsimp only
          rw [hcur, hstate]
      · rw [if_neg hch] at h
        have he' := Option.some.inj h
        subst he'
        push_neg at hch
        refine ⟨rfl, rfl, ?_, ?_, ?_⟩
        · intro id hid
          dsimp only
          rw [alFind_alSet_ne _ _ _ _ hid]
        · unfold Engine.sensor_state
          dsimp only
          rw [alFind_alSet_self, hch]
          rfl
        · left
          exact ⟨rfl, by rw [hch, hstate]⟩
    · rw [if_neg hfind] at h
      obtain ⟨s, hs⟩ := Option.ne_none_iff_exists'.mp hfind
      rw [show Engine.evaluate_sensor
            { window := w, rules := e.rules,
              sensor_states := e.sensor_states,
              transitions := e.transitions } r.sensor_id
          = Engine.evaluate_sensor { e with window := w } r.sensor_id from rfl] at h
      have hcur : (alFind e.sensor_states r.sensor_id).getD SystemState.OK = s := by
        rw [hs]
        rfl
      have hstate : e.sensor_state r.sensor_id = s := by
        unfold Engine.sensor_state
        rw [hs]
        rfl
      rw [hcur] at h
      by_cases hch : Engine.evaluate_sensor { e with window := w } r.sensor_id ≠ s
      · rw [if_pos hch] at h
        have he' := Option.some.inj h
        subst he'
        refine ⟨rfl, rfl, ?_, ?_, ?_⟩
        · intro id hid
          unfold Engine.transition
          dsimp only
          rw [alFind_alSet_ne _ _ _ _ hid]
        · unfold Engine.sensor_state Engine.transition
          dsimp only
          rw [alFind_alSet_self]
          rfl
        · right
          refine ⟨?_, by rw [hstate]; exact hch⟩
          unfold Engine.transition
          dsimp only
          rw [hcur, hstate]
      · rw [if_neg hch] at h
        have he' := Option.some.inj h
        subst he'
        push_neg at hch
        refine ⟨rfl, rfl, ?_, ?_, ?_⟩
        · intro id hid
          rfl
        · rw [hch]
          unfold Engine.sensor_state
          dsimp only
          rw [hs]
          rfl
        · left
          exact ⟨rfl, by rw [hch, hstate]⟩

/-- Claim C1 is false as stated: with a `DEGRADED` rule registered before a
`FAILED` rule and a valid latest sample, `Engine::process` assigns
`DEGRADED`, while the maximum of all rule severities is `FAILED`: the loop
returns at the first `DEGRADED` result without consulting later rules. -/
theorem C1_counterexample :
    (c1Engine.process1 c1Reading 0).map (fun e => e.sensor_state "s")
        = some SystemState.DEGRADED ∧
    (c1Engine.process1 c1Reading 0).map
        (fun e => (e.window.latest "s").valid) = some true ∧
    (c1Engine.process1 c1Reading 0).map
        (fun e => sevToState (sevMaxList (ruleSeverities e.window "s" c1Engine.rules)))
        = some SystemState.FAILED :=
  ⟨rfl, rfl, rfl⟩

/-- Claim C1 (amended): for a signal whose latest window sample is valid,
the state `Engine::process` assigns is the severity of the FIRST rule in
registration order whose severity is not `OK` (`OK` when every rule reports
`OK`); a `FAILED` rule registered after a `DEGRADED` one is not consulted. -/
theorem C1_first_nonok_rule_wins (e e' : Engine) (r : SensorReading) (now : ℚ)
    (h : e.process1 r now = some e')
    (hv : (e'.window.latest r.sensor_id).valid = true) :
    e'.sensor_state r.sensor_id =
      sevToState (firstNonOkSev (ruleSeverities e'.window r.sensor_id e.rules)) := by
  obtain ⟨w, hp, hw, hrules, hother, hself, htr⟩ := process1_spec e r now e' h
  subst hw
  rw [hself]
  unfold Engine.evaluate_sensor
  dsimp only
  rw [if_neg (by rw [hv]; simp)]
  exact runRules_eq_firstNonOk _ _ _

theorem C1_first_nonok_rule_wins_witness :
    c1Engine2'.sensor_state c1Reading.sensor_id =
      sevToState (firstNonOkSev
        (ruleSeverities c1Engine2'.window c1Reading.sensor_id c1Engine2.rules)) :=
  C1_first_nonok_rule_wins c1Engine2 c1Engine2' c1Reading 0 rfl rfl

theorem process1_sets_known (e e' : Engine) (r : SensorReading) (now : ℚ)
    (h : e.process1 r now = some e') :
    e'.sensor_state r.sensor_id ≠ SystemState.UNKNOWN := by
  obtain ⟨w, _, _, _, _, hself, _⟩ := process1_spec e r now e' h
  rw [hself]
  exact evaluate_sensor_ne_unknown _ _

theorem process1_preserves_known (e e' : Engine) (r : SensorReading) (now : ℚ)
    (id : String) (h : e.process1 r now = some e')
    (hk : e.sensor_state id ≠ SystemState.UNKNOWN) :
    e'.sensor_state id ≠ SystemState.UNKNOWN := by
  obtain ⟨w, hp, hw, hrules, hother, hself, _⟩ := process1_spec e r now e' h
  by_cases hid : id = r.sensor_id
  · subst hid
    rw [hself]
    exact evaluate_sensor_ne_unknown _ _
  · have heq : e'.sensor_state id = e.sensor_state id := by
      unfold Engine.sensor_state
      rw [hother id hid]
    rw [heq]
    exact hk

theorem process_known (batch : List SensorReading) :
    ∀ (e e' : Engine) (now : ℚ) (id : String),
      e.process batch now = some e' →
      ((∃ r ∈ batch, r.sensor_id = id) ∨
        e.sensor_state id ≠ SystemState.UNKNOWN) →
      e'.sensor_state id ≠ SystemState.UNKNOWN := by
  induction batch with
  | nil =>
    intro e e' now id h hc
    unfold Engine.process at h
    have he := Option.some.inj h
    subst he
    rcases hc with hin | hk
    · simp at hin
    · exact hk
  | cons r rest ih =>
    intro e e' now id h hc
    unfold Engine.process at h
    cases h1 : e.process1 r now with
    | none => rw [h1] at h; exact absurd h (by simp)
    | some e1 =>
      rw [h1] at h
      dsimp only at h
      rcases hc with hin | hk
      · rcases hin with ⟨r', hr', hrid⟩
        rcases List.mem_cons.mp hr' with hhead | htail
        · subst hhead
          refine ih e1 e' now id h (Or.inr ?_)
          rw [← hrid]
          exact process1_sets_known e e1 r' now h1
        · exact ih e1 e' now id h (Or.inl ⟨r', htail, hrid⟩)
      · exact ih e1 e' now id h
          (Or.inr (process1_preserves_known e e1 r now id h1 hk))

theorem processAll_known (batches : List (List SensorReading × ℚ)) :
    ∀ (e e' : Engine) (id : String),
      e.processAll batches = some e' →
      ((∃ b ∈ batches, ∃ r ∈ b.1, r.sensor_id = id) ∨
        e.sensor_state id ≠ SystemState.UNKNOWN) →
      e'.sensor_state id ≠ SystemState.UNKNOWN := by
  induction batches with
  | nil =>
    intro e e' id h hc
    unfold Engine.processAll at h
    have he := Option.some.inj h
    subst he
    rcases hc with hin | hk
    · simp at hin
    · exact hk
  | cons b rest ih =>
    intro e e' id h hc
    unfold Engine.processAll at h
    rcases b with ⟨batch, now⟩
    cases h1 : e.process batch now with
    | none => rw [h1] at h; exact absurd h (by simp)
    | some e1 =>
      rw [h1] at h
      dsimp only at h
      rcases hc with hin | hk
      · rcases hin with ⟨b', hb', hr⟩
        rcases List.mem_cons.mp hb' with hhead | htail
        · subst hhead
          exact ih e1 e' id h
            (Or.inr (process_known batch e e1 now id h1 (Or.inl hr)))
        · exact ih e1 e' id h (Or.inl ⟨b', htail, hr⟩)
      · exact ih e1 e' id h
          (Or.inr (process_known batch e e1 now id h1 (Or.inr hk)))

/-- Claim C7: once a signal id has appeared in a processed sample, its state
is never `UNKNOWN` after that `process` call (stated for an arbitrary
starting engine and an arbitrary sequence of `process` calls; applying it to
every prefix of a run gives the claim at every intermediate point). -/
theorem C7_never_unknown_after_first (e0 e' : Engine)
    (batches : List (List SensorReading × ℚ))
    (h : e0.processAll batches = some e') (id : String)
    (hid : ∃ b ∈ batches, ∃ r ∈ b.1, r.sensor_id = id) :
    e'.sensor_state id ≠ SystemState.UNKNOWN :=
  processAll_known batches e0 e' id h (Or.inl hid)

theorem C7_never_unknown_after_first_witness :
    c7Engine'.sensor_state "s" ≠ SystemState.UNKNOWN :=
  C7_never_unknown_after_first (Engine.make 4) c7Engine' [([c1Reading], 0)]
    rfl "s" (by decide)

theorem chainFrom_append (l : List StateTransition) :
    ∀ (s : SystemState) (t : StateTransition),
      chainFrom s (l ++ [t]) ↔
        chainFrom s l ∧ t.from_ = chainEnd s l ∧ t.to_ ≠ t.from_ := by
  induction l with
  | nil =>
    intro s t
    simp [chainFrom, chainEnd]
  | cons u rest ih =>
    intro s t
    rw [show (u :: rest) ++ [t] = u :: (rest ++ [t]) from rfl]
    rw [show chainFrom s (u :: (rest ++ [t]))
          = (u.from_ = s ∧ u.to_ ≠ u.from_ ∧ chainFrom u.to_ (rest ++ [t])) from rfl]
    rw [show chainFrom s (u :: rest)
          = (u.from_ = s ∧ u.to_ ≠ u.from_ ∧ chainFrom u.to_ rest) from rfl]
    rw [show chainEnd s (u :: rest) = chainEnd u.to_ rest from rfl]
    rw [ih u.to_ t]
    tauto

theorem chainEnd_append (l : List StateTransition) :
    ∀ (s : SystemState) (t : StateTransition), chainEnd s (l ++ [t]) = t.to_ := by
  induction l with
  | nil => intro s t; rfl
  | cons u rest ih =>
    intro s t
    rw [show (u :: rest) ++ [t] = u :: (rest ++ [t]) from rfl]
    rw [show chainEnd s (u :: (rest ++ [t])) = chainEnd u.to_ (rest ++ [t]) from rfl]
    exact ih u.to_ t

theorem process1_chain (e e' : Engine) (r : SensorReading) (now : ℚ) (id : String)
    (h : e.process1 r now = some e')
    (hc1 : chainFrom SystemState.UNKNOWN (tlog e id))
    (hc2 : e.sensor_state id = chainEnd SystemState.UNKNOWN (tlog e id)) :
    chainFrom SystemState.UNKNOWN (tlog e' id) ∧
      e'.sensor_state id = chainEnd SystemState.UNKNOWN (tlog e' id) := by
  obtain ⟨w, hp, hw, hrules, hother, hself, htr⟩ := process1_spec e r now e' h
  by_cases hid : id = r.sensor_id
  · subst hid
    rcases htr with ⟨htr_eq, hns⟩ | ⟨htr_eq, hns⟩
    · have htlog : tlog e' r.sensor_id = tlog e r.sensor_id := by
        unfold tlog
        rw [htr_eq]
      refine ⟨?_, ?_⟩
      · rw [htlog]
        exact hc1
      · rw [htlog, hself, hns]
        exact hc2
    · have htlog : tlog e' r.sensor_id = tlog e r.sensor_id ++
          [{ sensor_id := r.sensor_id, from_ := e.sensor_state r.sensor_id,
             to_ := Engine.evaluate_sensor { e with window := w } r.sensor_id,
             reason := "rule_evaluation", timestamp := now }] := by
        unfold tlog
        rw [htr_eq, List.filter_append]
        simp
      rw [htlog]
      constructor
      · rw [chainFrom_append]
        exact ⟨hc1, by rw [← hc2], hns⟩
      · rw [chainEnd_append, hself]
  · have htlog : tlog e' id = tlog e id := by
      unfold tlog
      rcases htr with ⟨htr_eq, _⟩ | ⟨htr_eq, _⟩
      · rw [htr_eq]
      · rw [htr_eq, List.filter_append]
        have : (fun (t : StateTransition) => t.sensor_id == id)
            { sensor_id := r.sensor_id, from_ := e.sensor_state r.sensor_id,
              to_ := Engine.evaluate_sensor { e with window := w } r.sensor_id,
              reason := "rule_evaluation", timestamp := now } = false := by
          simp
          exact fun hh => hid hh.symm
        simp [List.filter, this]
    have hstate : e'.sensor_state id = e.sensor_state id := by
      unfold Engine.sensor_state
      rw [hother id hid]
    rw [htlog, hstate]
    exact ⟨hc1, hc2⟩

theorem process_chain (batch : List SensorReading) :
    ∀ (e e' : Engine) (now : ℚ) (id : String),
      e.process batch now = some e' →
      chainFrom SystemState.UNKNOWN (tlog e id) →
      e.sensor_state id = chainEnd SystemState.UNKNOWN (tlog e id) →
      chainFrom SystemState.UNKNOWN (tlog e' id) ∧
        e'.sensor_state id = chainEnd SystemState.UNKNOWN (tlog e' id) := by
  induction batch with
  | nil =>
    intro e e' now id h hc1 hc2
    unfold Engine.process at h
    have he := Option.some.inj h
    subst he
    exact ⟨hc1, hc2⟩
  | cons r rest ih =>
    intro e e' now id h hc1 hc2
    unfold Engine.process at h
    cases h1 : e.process1 r now with
    | none => rw [h1] at h; exact absurd h (by simp)
    | some e1 =>
      rw [h1] at h
      dsimp only at h
      obtain ⟨hd1, hd2⟩ := process1_chain e e1 r now id h1 hc1 hc2
      exact ih e1 e' now id h hd1 hd2

theorem processAll_chain (batches : List (List SensorReading × ℚ)) :
    ∀ (e e' : Engine) (id : String),
      e.processAll batches = some e' →
      chainFrom SystemState.UNKNOWN (tlog e id) →
      e.sensor_state id = chainEnd SystemState.UNKNOWN (tlog e id) →
      chainFrom SystemState.UNKNOWN (tlog e' id) ∧
        e'.sensor_state id = chainEnd SystemState.UNKNOWN (tlog e' id) := by
  induction batches with
  | nil =>
    intro e e' id h hc1 hc2
    unfold Engine.processAll at h
    have he := Option.some.inj h
    subst he
    exact ⟨hc1, hc2⟩
  | cons b rest ih =>
    intro e e' id h hc1 hc2
    unfold Engine.processAll at h
    rcases b with ⟨batch, now⟩
    cases h1 : e.process batch now with
    | none => rw [h1] at h; exact absurd h (by simp)
    | some e1 =>
      rw [h1] at h
      dsimp only at h
      obtain ⟨hd1, hd2⟩ := process_chain batch e e1 now id h1 hc1 hc2
      exact ih e1 e' id h hd1 hd2

/-- Claim C9: for every signal id, the id's subsequence of the transition
log of an engine reached from a fresh engine is a chain: the first record
leaves `UNKNOWN`, no record is a self-loop, consecutive records link
`to`/`from`, and the signal's current state is the end of the chain (hence
each record's `from` is the state immediately before it was appended). -/
theorem C9_transition_log_chain (e0 e' : Engine)
    (h0s : e0.sensor_states = []) (h0t : e0.transitions = [])
    (batches : List (List SensorReading × ℚ))
    (h : e0.processAll batches = some e') (id : String) :
    chainFrom SystemState.UNKNOWN (tlog e' id) ∧
      e'.sensor_state id = chainEnd SystemState.UNKNOWN (tlog e' id) := by
  have h1 : chainFrom SystemState.UNKNOWN (tlog e0 id) := by
    unfold tlog
    rw [h0t]
    exact trivial
  have h2 : e0.sensor_state id = chainEnd SystemState.UNKNOWN (tlog e0 id) := by
    unfold tlog Engine.sensor_state
    rw [h0t, h0s]
    rfl
  exact processAll_chain batches e0 e' id h h1 h2

theorem C9_transition_log_chain_witness :
    chainFrom SystemState.UNKNOWN (tlog c9Engine' "s") ∧
      c9Engine'.sensor_state "s" = chainEnd SystemState.UNKNOWN (tlog c9Engine' "s") :=
  C9_transition_log_chain (Engine.make 4) c9Engine' rfl rfl
    [([c1Reading], 0)] rfl "s"

theorem apply_missing_pos (inj : FaultInjector) (r : SensorReading)
    (id : String) (p : FaultParameters) (c : Int) (hrid : r.sensor_id = id)
    (hf : inj.faults id = some
      { type := FaultType.MISSING_UPDATE, params := p, cycles_remaining := c })
    (hc : 0 < c) :
    inj.apply r = ({ r with valid := false },
      { faults := fun k => if k = id then
          some { type := FaultType.MISSING_UPDATE, params := p,
                 cycles_remaining := c - 1 }
        else inj.faults k }) := by
  unfold FaultInjector.apply
  rw [hrid, hf]
  dsimp only
  rw [if_pos hc]

theorem apply_missing_done (inj : FaultInjector) (r : SensorReading)
    (id : String) (p : FaultParameters) (c : Int) (hrid : r.sensor_id = id)
    (hf : inj.faults id = some
      { type := FaultType.MISSING_UPDATE, params := p, cycles_remaining := c })
    (hc : ¬ 0 < c) :
    inj.apply r = (r, inj.clear id) := by
  unfold FaultInjector.apply
  rw [hrid, hf]
  dsimp only
  rw [if_neg hc]

theorem applyN_missing_suppress (rs : List SensorReading) :
    ∀ (inj : FaultInjector) (id : String) (p : FaultParameters) (c : Int),
      inj.faults id = some
        { type := FaultType.MISSING_UPDATE, params := p, cycles_remaining := c } →
      (rs.length : Int) ≤ c →
      (∀ r ∈ rs, r.sensor_id = id) →
      (inj.applyN rs).1 = rs.map (fun r => { r with valid := false }) ∧
      (inj.applyN rs).2.faults id = some
        { type := FaultType.MISSING_UPDATE, params := p,
          cycles_remaining := c - rs.length } := by
  induction rs with
  | nil =>
    intro inj id p c hf _ _
    refine ⟨rfl, ?_⟩
    show inj.faults id = some
      { type := FaultType.MISSING_UPDATE, params := p,
        cycles_remaining := c - (([] : List SensorReading).length : Int) }
    rw [hf]
    simp
  | cons r rest ih =>
    intro inj id p c hf hlen hall
    have hrid : r.sensor_id = id := hall r (List.mem_cons_self r rest)
    have hpos : (0 : Int) < c := by
      rw [List.length_cons] at hlen
      push_cast at hlen
      omega
    unfold FaultInjector.applyN
    rw [apply_missing_pos inj r id p c hrid hf hpos]
    dsimp only
    obtain ⟨h1, h2⟩ := ih
      { faults := fun k => if k = id then
          some { type := FaultType.MISSING_UPDATE, params := p,
                 cycles_remaining := c - 1 }
        else inj.faults k }
      id p (c - 1) (by simp) (by rw [List.length_cons] at hlen; push_cast at hlen ⊢; omega)
      (fun r' hr' => hall r' (List.mem_cons_of_mem r hr'))
    refine ⟨?_, ?_⟩
    · rw [h1, List.map_cons]
    · rw [h2]
      rw [List.length_cons]
      congr 2
      push_cast
      ring

theorem applyN_cons (inj : FaultInjector) (r : SensorReading)
    (rest : List SensorReading) :
    inj.applyN (r :: rest)
      = (((inj.apply r).1) :: (((inj.apply r).2).applyN rest).1,
         (((inj.apply r).2).applyN rest).2) := rfl

theorem applyN_append (a b : List SensorReading) :
    ∀ inj : FaultInjector,
      (inj.applyN (a ++ b)).1
        = (inj.applyN a).1 ++ (((inj.applyN a).2).applyN b).1 ∧
      (inj.applyN (a ++ b)).2 = (((inj.applyN a).2).applyN b).2 := by
  induction a with
  | nil => intro inj; exact ⟨rfl, rfl⟩
  | cons r rest ih =>
    intro inj
    rw [List.cons_append, applyN_cons inj r (rest ++ b), applyN_cons inj r rest]
    dsimp only
    obtain ⟨h1, h2⟩ := ih ((inj.apply r).2)
    rw [h1, h2]
    refine ⟨?_, rfl⟩
    rw [List.cons_append]

/-- Claim C5: after `inject(id, MissingUpdate, params)` with
`suppress_cycles = k`, the next `k` applies on samples with that id return
the sample with `valid = false`, and the `(k+1)`-th returns its input
unchanged. -/
theorem C5_missing_update_cycles (inj0 : FaultInjector) (id : String)
    (params : FaultParameters) (k : Nat)
    (hk : params.suppress_cycles = (k : Int))
    (rs : List SensorReading) (hlen : rs.length = k + 1)
    (hall : ∀ r ∈ rs, r.sensor_id = id) :
    ((inj0.inject id FaultType.MISSING_UPDATE params).applyN rs).1
      = (rs.take k).map (fun r => { r with valid := false }) ++ rs.drop k := by
  have hf : (inj0.inject id FaultType.MISSING_UPDATE params).faults id
      = some { type := FaultType.MISSING_UPDATE, params := params,
               cycles_remaining := (k : Int) } := by
    unfold FaultInjector.inject
    simp [hk]
  have hlentake : (rs.take k).length = k := by
    rw [List.length_take]
    omega
  obtain ⟨h1, h2⟩ := applyN_missing_suppress (rs.take k)
    (inj0.inject id FaultType.MISSING_UPDATE params) id params (k : Int)
    hf (by rw [hlentake]) (fun r hr => hall r (List.take_subset k rs hr))
  have hlendrop : (rs.drop k).length = 1 := by
    rw [List.length_drop]
    omega
  obtain ⟨x, hx⟩ := List.length_eq_one.mp hlendrop
  have hx_id : x.sensor_id = id :=
    hall x (List.drop_subset k rs (hx ▸ List.mem_singleton_self x))
  rw [hlentake] at h2
  have h2z : ((inj0.inject id FaultType.MISSING_UPDATE params).applyN
      (rs.take k)).2.faults id
      = some { type := FaultType.MISSING_UPDATE, params := params,
               cycles_remaining := 0 } := by
    rw [h2]
    simp
  have hmid := apply_missing_done
    ((inj0.inject id FaultType.MISSING_UPDATE params).applyN (rs.take k)).2
    x id params 0 hx_id h2z (by omega)
  obtain ⟨ha1, _⟩ := applyN_append (rs.take k) (rs.drop k)
    (inj0.inject id FaultType.MISSING_UPDATE params)
  conv_lhs => rw [← List.take_append_drop k rs]
  rw [ha1, h1, hx, applyN_cons, hmid]
  rfl

theorem C5_missing_update_cycles_witness :
    ((FaultInjector.empty.inject "s" FaultType.MISSING_UPDATE c5Params).applyN
        c5Readings).1
      = (c5Readings.take 2).map (fun r => { r with valid := false })
          ++ c5Readings.drop 2 :=
  C5_missing_update_cycles FaultInjector.empty "s" c5Params 2 rfl
    c5Readings rfl (by decide)

/-- Claim C6 is false as stated: with `suppress_cycles = 1` the single
(k-th) suppressed apply leaves the fault installed, so `has_fault` is still
`true` immediately after it; the fault is only erased by the next apply. -/
theorem C6_counterexample :
    ((FaultInjector.empty.inject "s" FaultType.MISSING_UPDATE
        { suppress_cycles := 1 }).apply c1Reading).1.valid = false ∧
    (((FaultInjector.empty.inject "s" FaultType.MISSING_UPDATE
        { suppress_cycles := 1 }).apply c1Reading).2).has_fault "s" = true :=
  ⟨rfl, rfl⟩

/-- Claim C6 (amended): after `inject(id, MissingUpdate, params)` with
`suppress_cycles = k`, the fault is still installed immediately after the
k-th (last) suppressed apply (`has_fault = true`, with `cycles_remaining`
now `0`); it is erased during the `(k+1)`-th apply — the call that returns
its input unchanged — after which `has_fault = false`. -/
theorem C6_fault_clears_on_next_apply (inj0 : FaultInjector) (id : String)
    (params : FaultParameters) (k : Nat)
    (hk : params.suppress_cycles = (k : Int))
    (rs : List SensorReading) (hlen : rs.length = k)
    (hall : ∀ r ∈ rs, r.sensor_id = id)
    (r : SensorReading) (hr : r.sensor_id = id) :
    (((inj0.inject id FaultType.MISSING_UPDATE params).applyN rs).2).has_fault id
        = true ∧
    (((((inj0.inject id FaultType.MISSING_UPDATE params).applyN rs).2).apply
        r).2).has_fault id = false := by
  have hf : (inj0.inject id FaultType.MISSING_UPDATE params).faults id
      = some { type := FaultType.MISSING_UPDATE, params := params,
               cycles_remaining := (k : Int) } := by
    unfold FaultInjector.inject
    simp [hk]
  obtain ⟨h1, h2⟩ := applyN_missing_suppress rs
    (inj0.inject id FaultType.MISSING_UPDATE params) id params (k : Int)
    hf (by rw [hlen]) hall
  have h2z : ((inj0.inject id FaultType.MISSING_UPDATE params).applyN rs).2.faults id
      = some { type := FaultType.MISSING_UPDATE, params := params,
               cycles_remaining := 0 } := by
    rw [h2, hlen]
    simp
  refine ⟨?_, ?_⟩
  · unfold FaultInjector.has_fault
    rw [h2z]
    rfl
  · rw [apply_missing_done _ r id params 0 hr h2z (by omega)]
    unfold FaultInjector.has_fault FaultInjector.clear
    simp

theorem C6_fault_clears_on_next_apply_witness :
    (((FaultInjector.empty.inject "s" FaultType.MISSING_UPDATE c6Params).applyN
        c6Readings).2).has_fault "s" = true ∧
    (((((FaultInjector.empty.inject "s" FaultType.MISSING_UPDATE c6Params).applyN
        c6Readings).2).apply c1Reading).2).has_fault "s" = false :=
  C6_fault_clears_on_next_apply FaultInjector.empty "s" c6Params 1 rfl
    c6Readings rfl (by decide) c1Reading rfl

theorem getD_append_lt {α : Type} (l l' : List α) :
    ∀ (i : Nat) (d : α), i < l.length → (l ++ l').getD i d = l.getD i d := by
  induction l with
  | nil => intro i d h; simp at h
  | cons a rest ih =>
    intro i d h
    cases i with
    | zero => rfl
    | succ j =>
      rw [List.cons_append]
      show (rest ++ l').getD j d = rest.getD j d
      exact ih j d (by simp at h; omega)

theorem getD_append_self {α : Type} (l : List α) (r : α) (d : α) :
    (l ++ [r]).getD l.length d = r := by
  induction l with
  | nil => rfl
  | cons a rest ih => exact ih

theorem getD_set_self {α : Type} (l : List α) :
    ∀ (j : Nat) (r : α) (d : α), j < l.length → (l.set j r).getD j d = r := by
  induction l with
  | nil => intro j r d h; simp at h
  | cons a rest ih =>
    intro j r d h
    cases j with
    | zero => rfl
    | succ i => exact ih i r d (by simp at h; omega)

theorem getD_set_ne {α : Type} (l : List α) :
    ∀ (j i : Nat) (r : α) (d : α), i ≠ j → (l.set j r).getD i d = l.getD i d := by
  induction l with
  | nil => intro j i r d _; rfl
  | cons a rest ih =>
    intro j i r d hne
    cases j with
    | zero =>
      cases i with
      | zero => exact absurd rfl hne
      | succ i' => rfl
    | succ j' =>
      cases i with
      | zero => rfl
      | succ i' => exact ih j' i' r d (by omega)

theorem map_range_getD {α : Type} (l : List α) (d : α) :
    (List.range l.length).map (fun i => l.getD i d) = l := by
  induction l with
  | nil => rfl
  | cons a rest ih =>
    rw [List.length_cons, List.range_succ_eq_map, List.map_cons, List.map_map]
    show a :: (List.range rest.length).map (fun i => rest.getD i d) = a :: rest
    rw [ih]

theorem map_range_getD_mod {α : Type} (l : List α) (d : α) :
    (List.range l.length).map (fun i => l.getD ((0 + i) % l.length) d) = l := by
  by_cases hl : l.length = 0
  · rw [List.length_eq_zero] at hl
    subst hl
    rfl
  · have hcongr : ∀ i ∈ List.range l.length,
        l.getD ((0 + i) % l.length) d = l.getD i d := by
      intro i hi
      rw [List.mem_range] at hi
      rw [Nat.zero_add, Nat.mod_eq_of_lt hi]
    rw [List.map_congr_left hcongr, map_range_getD]

theorem rotate_set_readings (c : Nat) (buf : List SensorReading)
    (hlen : buf.length = c) (h' : Nat) (hh : h' < c) (r d : SensorReading) :
    (List.range c).map
        (fun i => (buf.set h' r).getD (((h' + 1) % c + i) % c) d)
      = ((List.range c).map (fun i => buf.getD ((h' + i) % c) d)).drop 1
        ++ [r] := by
  obtain ⟨c', rfl⟩ : ∃ c', c = c' + 1 := ⟨c - 1, by omega⟩
  conv_lhs => rw [List.range_succ]
  conv_rhs => rw [List.range_succ_eq_map]
  rw [List.map_append, List.map_singleton, List.map_cons, List.map_map]
  rw [show ((buf.getD ((h' + 0) % (c' + 1)) d) ::
        List.map ((fun i => buf.getD ((h' + i) % (c' + 1)) d) ∘ (· + 1))
          (List.range c')).drop 1
      = List.map ((fun i => buf.getD ((h' + i) % (c' + 1)) d) ∘ (· + 1))
          (List.range c') from rfl]
  have hmain : ∀ i ∈ List.range c',
      (buf.set h' r).getD (((h' + 1) % (c' + 1) + i) % (c' + 1)) d
        = ((fun i => buf.getD ((h' + i) % (c' + 1)) d) ∘ (· + 1)) i := by
    intro i hi
    rw [List.mem_range] at hi
    rw [Nat.mod_add_mod]
    have hne : (h' + 1 + i) % (c' + 1) ≠ h' := by
      intro heq
      by_cases hx : h' + 1 + i < c' + 1
      · rw [Nat.mod_eq_of_lt hx] at heq
        omega
      · rw [Nat.mod_eq_sub_mod (by omega)] at heq
        rw [Nat.mod_eq_of_lt (by omega)] at heq
        omega
    rw [getD_set_ne buf h' ((h' + 1 + i) % (c' + 1)) r d hne]
    show buf.getD ((h' + 1 + i) % (c' + 1)) d = buf.getD ((h' + (i + 1)) % (c' + 1)) d
    rw [show h' + 1 + i = h' + (i + 1) from by omega]
  rw [List.map_congr_left hmain]
  have hlast : (buf.set h' r).getD (((h' + 1) % (c' + 1) + c') % (c' + 1)) d = r := by
    rw [Nat.mod_add_mod]
    rw [show h' + 1 + c' = h' + (c' + 1) from by omega]
    rw [Nat.add_mod_right, Nat.mod_eq_of_lt hh]
    exact getD_set_self buf h' r d (by omega)
  rw [hlast]

theorem push_step (w : MeasurementWindow) (r : SensorReading) (id : String)
    (hc : 1 ≤ w.capacity) (hrid : r.sensor_id = id)
    (hwf : ∀ rb, alFind w.buffers id = some rb → rbWF w.capacity rb) :
    ∃ w', w.push r = some w' ∧
      w'.capacity = w.capacity ∧
      (∀ rb, alFind w'.buffers id = some rb → rbWF w.capacity rb) ∧
      w'.readings_for id = absPush w.capacity (w.readings_for id) r ∧
      w'.latest id = r := by
  subst hrid
  unfold MeasurementWindow.push
  cases hfind : alFind w.buffers r.sensor_id with
  | none =>
    simp only [Option.getD_none]
    rw [if_pos (show emptyRB.buffer.length < w.capacity from by
      show (0 : Nat) < w.capacity
      omega)]
    refine ⟨_, rfl, rfl, ?_, ?_, ?_⟩
    · intro rb' hrb'
      rw [alFind_alSet_self] at hrb'
      have hrb'' := Option.some.inj hrb'
      subst hrb''
      exact ⟨rfl, by simpa using hc, fun _ => rfl, fun _ => hc⟩
    · have hold : w.readings_for r.sensor_id = [] := by
        unfold MeasurementWindow.readings_for
        rw [hfind]
      rw [hold]
      rw [show absPush w.capacity [] r = [r] from by
        unfold absPush
        rw [if_pos (by simpa using hc)]
        rfl]
      unfold MeasurementWindow.readings_for
      rw [alFind_alSet_self]
      dsimp only
      by_cases h1 : (1 : Nat) < w.capacity
      · rw [if_pos (show emptyRB.buffer.length + 1 < w.capacity from h1)]
        rfl
      · have hceq : w.capacity = 1 := by omega
        rw [if_neg (show ¬ emptyRB.buffer.length + 1 < w.capacity from by
          rw [hceq]; omega)]
        rw [hceq]
        rfl
    · unfold MeasurementWindow.latest
      rw [alFind_alSet_self]
      rfl
  | some rb =>
    simp only [Option.getD_some]
    obtain ⟨hcnt, hle, hpart, hfull⟩ := hwf rb hfind
    by_cases hlt : rb.buffer.length < w.capacity
    · have hpos : 0 < rb.buffer.length := by
        have := hpart hlt
        omega
      rw [if_pos hlt]
      refine ⟨_, rfl, rfl, ?_, ?_, ?_⟩
      · intro rb' hrb'
        rw [alFind_alSet_self] at hrb'
        have hrb'' := Option.some.inj hrb'
        subst hrb''
        refine ⟨by simp, by simp; omega, ?_, ?_⟩
        · intro _
          simp
        · intro _
          simp only [List.length_append, List.length_singleton]
          omega
      · have hold : w.readings_for r.sensor_id = rb.buffer := by
          unfold MeasurementWindow.readings_for
          rw [hfind]
          dsimp only
          rw [hcnt, if_pos hlt]
          exact map_range_getD_mod rb.buffer default
        rw [hold]
        rw [show absPush w.capacity rb.buffer r = rb.buffer ++ [r] from by
          unfold absPush
          rw [if_pos hlt]]
        unfold MeasurementWindow.readings_for
        rw [alFind_alSet_self]
        dsimp only
        rw [show (rb.buffer ++ [r]).length = rb.buffer.length + 1 from by simp]
        have hmr := map_range_getD_mod (rb.buffer ++ [r]) default
        rw [List.length_append, List.length_singleton] at hmr
        by_cases h2 : rb.buffer.length + 1 < w.capacity
        · rw [if_pos h2]
          exact hmr
        · have hceq : w.capacity = rb.buffer.length + 1 := by omega
          rw [if_neg h2, hceq, Nat.mod_self]
          exact hmr
      · unfold MeasurementWindow.latest
        rw [alFind_alSet_self]
        dsimp only
        rw [if_neg (by omega)]
        exact getD_append_self rb.buffer r default
    · have hleneq : rb.buffer.length = w.capacity := by omega
      have hcap0 : 0 < w.capacity := by omega
      have hhead : rb.head < w.capacity := hfull hleneq
      rw [if_neg hlt, if_neg (by omega)]
      refine ⟨_, rfl, rfl, ?_, ?_, ?_⟩
      · intro rb' hrb'
        rw [alFind_alSet_self] at hrb'
        have hrb'' := Option.some.inj hrb'
        subst hrb''
        refine ⟨by simp [List.length_set]; omega, by simp [List.length_set]; omega,
          ?_, ?_⟩
        · intro hcontra
          rw [List.length_set, hleneq] at hcontra
          omega
        · intro _
          exact Nat.mod_lt _ hcap0
      · have hold : w.readings_for r.sensor_id
            = (List.range w.capacity).map (fun i =>
                rb.buffer.getD (((rb.head + 1) % w.capacity + i) % w.capacity)
                  default) := by
          unfold MeasurementWindow.readings_for
          rw [hfind]
          dsimp only
          rw [hcnt, if_neg hlt, hleneq]
        rw [hold]
        rw [show absPush w.capacity
              ((List.range w.capacity).map (fun i =>
                rb.buffer.getD (((rb.head + 1) % w.capacity + i) % w.capacity)
                  default)) r
            = ((List.range w.capacity).map (fun i =>
                rb.buffer.getD (((rb.head + 1) % w.capacity + i) % w.capacity)
                  default)).drop 1 ++ [r] from by
          unfold absPush
          rw [if_neg (by simp)]]
        unfold MeasurementWindow.readings_for
        rw [alFind_alSet_self]
        dsimp only
        rw [if_neg (by omega), List.length_set, hleneq]
        exact rotate_set_readings w.capacity rb.buffer hleneq
          ((rb.head + 1) % w.capacity) (Nat.mod_lt _ hcap0) r default
      · unfold MeasurementWindow.latest
        rw [alFind_alSet_self]
        dsimp only
        rw [if_neg (by omega)]
        exact getD_set_self rb.buffer ((rb.head + 1) % w.capacity) r default
          (by rw [hleneq]; exact Nat.mod_lt _ hcap0)

theorem absPush_length (c : Nat) (m : List SensorReading) (r : SensorReading)
    (hc : 1 ≤ c) (h : m.length ≤ c) : (absPush c m r).length ≤ c := by
  unfold absPush
  by_cases hlt : m.length < c
  · rw [if_pos hlt]
    simp
    omega
  · rw [if_neg hlt]
    simp
    omega

theorem foldl_absPush (c : Nat) (hc : 1 ≤ c) (rs : List SensorReading) :
    ∀ m : List SensorReading, m.length ≤ c →
      rs.foldl (absPush c) m
        = (m ++ rs).drop ((m ++ rs).length - min ((m ++ rs).length) c) := by
  induction rs with
  | nil =>
    intro m hm
    rw [List.foldl_nil, List.append_nil]
    rw [show m.length - min m.length c = 0 from by omega]
    rfl
  | cons r rest ih =>
    intro m hm
    rw [List.foldl_cons]
    rw [ih (absPush c m r) (absPush_length c m r hc hm)]
    unfold absPush
    by_cases hlt : m.length < c
    · rw [if_pos hlt, List.append_assoc]
      rfl
    · have hmc : m.length = c := by omega
      have hm1 : 1 ≤ m.length := by omega
      obtain ⟨a, m', rfl⟩ : ∃ a m', m = a :: m' := by
        cases m with
        | nil => simp at hm1
        | cons a m' => exact ⟨a, m', rfl⟩
      rw [if_neg hlt]
      rw [show (a :: m').drop 1 = m' from rfl]
      rw [List.append_assoc]
      rw [show ([r] ++ rest : List SensorReading) = r :: rest from rfl]
      rw [show ((m' ++ (r :: rest)).length - min (m' ++ (r :: rest)).length c)
            = rest.length from by
        simp only [List.length_append, List.length_cons]
        simp at hmc
        omega]
      rw [show ((a :: m' ++ (r :: rest)).length
              - min (a :: m' ++ (r :: rest)).length c)
            = rest.length + 1 from by
        simp only [List.length_append, List.length_cons]
        simp at hmc
        omega]
      rw [show (a :: m') ++ (r :: rest) = a :: (m' ++ (r :: rest)) from rfl]
      rw [List.drop_succ_cons]

theorem pushList_spec (rs : List SensorReading) :
    ∀ (w : MeasurementWindow) (id : String), 1 ≤ w.capacity →
      (∀ r ∈ rs, r.sensor_id = id) →
      (∀ rb, alFind w.buffers id = some rb → rbWF w.capacity rb) →
      ∃ w', w.pushList rs = some w' ∧ w'.capacity = w.capacity ∧
        (∀ rb, alFind w'.buffers id = some rb → rbWF w.capacity rb) ∧
        w'.readings_for id = rs.foldl (absPush w.capacity) (w.readings_for id) ∧
        w'.latest id = rs.getLastD (w.latest id) := by
  induction rs with
  | nil =>
    intro w id hc hall hwf
    exact ⟨w, rfl, rfl, hwf, rfl, rfl⟩
  | cons r rest ih =>
    intro w id hc hall hwf
    obtain ⟨w1, hp, hcap, hwf1, hread1, hlat1⟩ :=
      push_step w r id hc (hall r (List.mem_cons_self r rest)) hwf
    obtain ⟨w', hp', hcap', hwf', hread', hlat'⟩ :=
      ih w1 id (by rw [hcap]; exact hc)
        (fun x hx => hall x (List.mem_cons_of_mem r hx))
        (by rw [hcap]; exact hwf1)
    refine ⟨w', ?_, ?_, ?_, ?_, ?_⟩
    · unfold MeasurementWindow.pushList
      rw [hp]
      exact hp'
    · rw [hcap', hcap]
    · rw [hcap] at hwf'
      exact hwf'
    · rw [List.foldl_cons, ← hread1]
      rw [hcap] at hread'
      exact hread'
    · rw [List.getLastD_cons, ← hlat1]
      exact hlat'

/-- Claim C4: for every capacity `c ≥ 1` and samples `s1, …, sn` pushed in
order with the same signal id into a fresh window of capacity `c`,
`readings_for(id)` returns exactly the most recent `min(n, c)` of them in
their original push order, and `latest(id)` returns `sn` (the sentinel
invalid reading when `n = 0`). -/
theorem C4_window_retention (c : Nat) (hc : 1 ≤ c) (id : String)
    (rs : List SensorReading) (hall : ∀ r ∈ rs, r.sensor_id = id) :
    ∃ w', (MeasurementWindow.make c).pushList rs = some w' ∧
      w'.readings_for id = rs.drop (rs.length - min rs.length c) ∧
      w'.latest id = rs.getLastD { sensor_id := id, valid := false } := by
  obtain ⟨w', hp, hcap, hwf, hread, hlat⟩ :=
    pushList_spec rs (MeasurementWindow.make c) id hc hall
      (fun rb hrb => by
        rw [show alFind (MeasurementWindow.make c).buffers id = none from rfl] at hrb
        exact absurd hrb (by simp))
  refine ⟨w', hp, ?_, ?_⟩
  · rw [hread]
    rw [show (MeasurementWindow.make c).readings_for id = [] from rfl]
    rw [show (MeasurementWindow.make c).capacity = c from rfl]
    have hfold := foldl_absPush c hc rs [] (by simp)
    rw [List.nil_append] at hfold
    exact hfold
  · rw [hlat]
    rw [show (MeasurementWindow.make c).latest id
          = { sensor_id := id, valid := false } from rfl]

theorem C4_window_retention_witness :
    ∃ w', (MeasurementWindow.make 2).pushList c5Readings = some w' ∧
      w'.readings_for "s"
        = c5Readings.drop (c5Readings.length - min c5Readings.length 2) ∧
      w'.latest "s" = c5Readings.getLastD { sensor_id := "s", valid := false } :=
  C4_window_retention 2 (by omega) "s" c5Readings (by decide)
